import Mathlib

/-!
Verification of the Godis repository core against its specification.

Shallow embedding conventions:
- Go byte strings (`[]byte`, `string`) are `List Nat` with byte values.
- Go `int` is 64-bit on the reference platform; values that stay far from
  2^63 are modelled as `Int` (or `Nat` where provably non-negative), with
  wrap-around written explicitly (`% 2^32`) where the source works in
  `uint32`.
- Go panics (index out of range, negative `make` length, division by zero)
  are modelled explicitly: functions return an `Option`/result with a
  dedicated crash constructor where the source can panic.
- Channel emission by the RESP parser is modelled as the list of payloads
  sent before the goroutine returns or panics.
-/

namespace Godis

/-- Go byte strings: a list of byte values. -/
abbrev GoBytes := List Nat

/-- A Go command line (`[][]byte`). -/
abbrev GoCmdLine := List GoBytes

/- ===== decimal numerals (strconv.Itoa / strconv.FormatInt, non-negative part) ===== -/

/-- ASCII decimal digits of `n`, most significant first (`strconv.Itoa` for `n ≥ 0`). -/
def natToDigits (n : Nat) : List Nat :=
  if n < 10 then [n + 48] else natToDigits (n / 10) ++ [n % 10 + 48]
termination_by n
decreasing_by
  exact Nat.div_lt_self (by omega) (by omega)

/-- `strconv.Itoa` / `strconv.FormatInt _ 10` over `Int`. -/
def intToDigits (i : Int) : List Nat :=
  if i < 0 then 45 :: natToDigits i.natAbs else natToDigits i.toNat

/-- Digit-accumulating loop of `strconv.ParseInt` (base 10): returns `none` on the
first non-digit byte. -/
def digitsValGo (acc : Nat) : List Nat → Option Nat
  | [] => some acc
  | d :: t => if 48 ≤ d ∧ d ≤ 57 then digitsValGo (acc * 10 + (d - 48)) t else none

/-- `strconv.ParseInt(s, 10, 64)` restricted to its success value: `none` models a
syntax error (in which case Go also returns the value 0).  Int64 overflow clamping
is not modelled; all inputs exercised here stay far below 2^63. -/
def parseIntBytes (l : List Nat) : Option Int :=
  match l with
  | [] => none
  | b :: t =>
    if b = 43 then (if t = [] then none else (digitsValGo 0 t).map Int.ofNat)
    else if b = 45 then (if t = [] then none else (digitsValGo 0 t).map (fun n => -(n : Int)))
    else (digitsValGo 0 (b :: t)).map Int.ofNat

/- ===== RESP reply values (redis/protocol/reply.go) ===== -/

/-- In-memory reply values of `redis/protocol/reply.go` that the parser can emit.
`multiBulk` args may be nil (`none`), as `MultiBulkReply.Args` elements may be. -/
inductive RReply where
  | status (s : GoBytes)
  | errRep (s : GoBytes)
  | int (n : Int)
  | bulk (content : GoBytes)
  | multiBulk (args : List (Option GoBytes))
deriving DecidableEq, Repr

/-- `MultiBulkReply.ToBytes` serialization of one argument: `$-1\r\n` for a nil
argument, otherwise `$<len>\r\n<bytes>\r\n`. -/
def serializeBulkItem : Option GoBytes → GoBytes
  | none => [36, 45, 49, 13, 10]
  | some c => 36 :: natToDigits c.length ++ [13, 10] ++ c ++ [13, 10]

/-- `MultiBulkReply.ToBytes`: `*<n>\r\n` followed by each argument's bulk encoding. -/
def serializeMultiBulk (args : List (Option GoBytes)) : GoBytes :=
  42 :: natToDigits args.length ++ [13, 10]
    ++ List.foldr (fun a acc => serializeBulkItem a ++ acc) [] args

/- ===== RESP streaming parser (redis/parser, parser0 et al.) ===== -/

/-- Error values carried in a `Payload.Err`. -/
inductive PErr where
  | eof
  | unexpectedEOF
  | protoErr (msg : GoBytes)
deriving DecidableEq, Repr

/-- One value sent on the parser's output channel. -/
inductive PayloadM where
  | dataP (r : RReply)
  | errP (e : PErr)
deriving DecidableEq, Repr

/-- Result of running `parser0` on a whole input: the payloads sent on the channel,
and whether the goroutine ended in a runtime panic instead of closing the channel. -/
structure ParseOut where
  payloads : List PayloadM
  crashed : Bool
deriving DecidableEq, Repr

/-- `bufio.Reader.ReadBytes('\n')`: the line up to and including the first `'\n'`
and the remaining input, or `none` when the input ends first (the Go call then
returns an error and `parser0` discards the partial data). -/
def readLine : List Nat → Option (List Nat × List Nat)
  | [] => none
  | b :: rest =>
    if b = 10 then some ([10], rest)
    else
      match readLine rest with
      | some (l, r) => some (b :: l, r)
      | none => none

/-- `bytes.TrimSuffix(line, "\r\n")`. -/
def trimSuffixCRLF (l : List Nat) : List Nat :=
  if 2 ≤ l.length ∧ l.drop (l.length - 2) = [13, 10] then l.take (l.length - 2) else l

/-- Result of `io.ReadFull` into a buffer of a given length. -/
inductive ReadRes where
  | okR (bytes : List Nat) (rest : List Nat)
  | errEOF
  | errUnexpectedEOF
deriving DecidableEq, Repr

/-- `io.ReadFull(reader, make([]byte, n))`: reads exactly `n` bytes; `io.EOF` when
no byte could be read, `io.ErrUnexpectedEOF` on a partial read.  A zero-length
buffer succeeds immediately. -/
def readFull (n : Nat) (input : List Nat) : ReadRes :=
  if n ≤ input.length then .okR (input.take n) (input.drop n)
  else if input.length = 0 then .errEOF
  else .errUnexpectedEOF

/-- `bytes.Split(l, []byte{' '})`. -/
def splitOnSpace : List Nat → List (List Nat)
  | [] => [[]]
  | b :: t =>
    match splitOnSpace t with
    | [] => [[]]
    | h :: hs => if b = 32 then [] :: h :: hs else (b :: h) :: hs

/-- Outcome of `parseBulkString`: a payload to emit plus the remaining input, an
error returned to `parser0` (which then emits it and closes), or a runtime panic. -/
inductive BulkRes where
  | okB (r : RReply) (rest : List Nat)
  | errB (e : PErr)
  | crashB
deriving DecidableEq, Repr

/-- `parseBulkString(line, reader, ch)` from the parser source.  The `ParseInt`
error is overwritten by the `io.ReadFull` error before it is ever checked, so a
malformed length is silently treated as 0.  `make([]byte, strLen+2)` panics for
`strLen ≤ -3`, and `body[:len(body)-2]` panics for `strLen ∈ {-1, -2}` once the
read succeeded. -/
def parseBulkString (line : List Nat) (input : List Nat) : BulkRes :=
  if (parseIntBytes (line.drop 1)).getD 0 + 2 < 0 then .crashB
  else
    match readFull ((parseIntBytes (line.drop 1)).getD 0 + 2).toNat input with
    | .errEOF => .errB .eof
    | .errUnexpectedEOF => .errB .unexpectedEOF
    | .okR body rest =>
      if body.length < 2 then .crashB
      else .okB (.bulk (body.take (body.length - 2))) rest

/-- Outcome of the element loop of `parseArray`. -/
inductive ArrRes where
  | okA (lines : List GoBytes) (rest : List Nat)
  | errA (e : PErr)
  | crashA
deriving DecidableEq, Repr

/-- The `for i := 0; i < nStrs; i++` loop of `parseArray`: reads one header line
and one body per element.  `line[1:len(line)-2]` panics when the line is shorter
than 3 bytes; the `ParseInt` error is again overwritten before being checked. -/
def parseArrayLoop (n : Nat) (acc : List GoBytes) (input : List Nat) : ArrRes :=
  match n with
  | 0 => .okA acc.reverse input
  | m + 1 =>
    match readLine input with
    | none => .errA .eof
    | some (line, rest) =>
      if line.length < 3 then .crashA
      else
        if (parseIntBytes ((line.take (line.length - 2)).drop 1)).getD 0 + 2 < 0 then .crashA
        else
          match readFull
              ((parseIntBytes ((line.take (line.length - 2)).drop 1)).getD 0 + 2).toNat rest with
          | .errEOF => .errA .eof
          | .errUnexpectedEOF => .errA .unexpectedEOF
          | .okR body rest2 =>
            if body.length < 2 then .crashA
            else parseArrayLoop m (body.take (body.length - 2) :: acc) rest2

/-- `parseArray(header, reader, ch)`: emits a protocol-error payload on a bad
header count but then still runs the loop with count 0 (the source neither
returns nor resets after `protocolError`); `make([][]byte, 0, nStrs)` panics for
a negative count. -/
def parseArray (header : List Nat) (input : List Nat) : List PayloadM × ArrRes :=
  match parseIntBytes (header.drop 1) with
  | none => ([.errP (.protoErr (header.drop 1))], parseArrayLoop 0 [] input)
  | some nStrs =>
    if nStrs < 0 then ([], .crashA)
    else ([], parseArrayLoop nStrs.toNat [] input)

def readLine_length {input line rest} (h : readLine input = some (line, rest)) :
    rest.length < input.length := by
  induction input generalizing line rest with
  | nil => simp [readLine] at h
  | cons b t ih =>
    rw [readLine] at h
    split at h
    · injection h with h1
      injection h1 with h1 h2
      subst h2
      simp
    · split at h
      · rename_i l r heq
        injection h with h1
        injection h1 with h1 h2
        subst h2
        have := ih heq
        simp
        omega
      · exact absurd h (by simp)

def readFull_length {n input body rest} (h : readFull n input = .okR body rest) :
    rest.length ≤ input.length := by
  unfold readFull at h
  split at h
  · injection h with h1 h2
    subst h2
    simp
  · split at h <;> exact absurd h (by simp)

def parseBulkString_length {line input r rest}
    (h : parseBulkString line input = .okB r rest) : rest.length ≤ input.length := by
  unfold parseBulkString at h
  split at h
  · exact absurd h (by simp)
  · split at h
    · exact absurd h (by simp)
    · exact absurd h (by simp)
    · rename_i body rest2 heq
      split at h
      · exact absurd h (by simp)
      · injection h with h1 h2
        subst h2
        exact readFull_length heq

def parseArrayLoop_length {n acc input lines rest}
    (h : parseArrayLoop n acc input = .okA lines rest) : rest.length ≤ input.length := by
  induction n generalizing acc input with
  | zero =>
    unfold parseArrayLoop at h
    injection h with h1 h2
    exact Nat.le_of_eq (congrArg List.length h2.symm)
  | succ m ih =>
    unfold parseArrayLoop at h
    split at h
    · exact absurd h (by simp)
    · rename_i line rest1 hl
      split at h
      · exact absurd h (by simp)
      · split at h
        · exact absurd h (by simp)
        · split at h
          · exact absurd h (by simp)
          · exact absurd h (by simp)
          · rename_i body rest2 hr
            split at h
            · exact absurd h (by simp)
            · have h1 := ih h
              have h2 := readFull_length hr
              have h3 := readLine_length hl
              omega

def parseArray_length {header input pre lines rest}
    (h : parseArray header input = (pre, .okA lines rest)) : rest.length ≤ input.length := by
  unfold parseArray at h
  split at h
  · injection h with h1 h2
    exact parseArrayLoop_length h2
  · split at h
    · exact absurd h (by simp)
    · injection h with h1 h2
      exact parseArrayLoop_length h2

/-- `parser0(rawReader, ch)` run to completion on a finite input: the list of
payloads sent, and whether the goroutine panicked.  `line[0]` on a line that is
empty after trimming (an input line of just `"\r\n"`) is an index-out-of-range
panic. -/
def parser0 (input : List Nat) : ParseOut :=
  match h : readLine input with
  | none => ⟨[.errP .eof], false⟩
  | some (line, rest) =>
    match trimSuffixCRLF line with
    | [] => ⟨[], true⟩
    | b :: bs =>
      if b = 43 then
        let r := parser0 rest
        ⟨.dataP (.status bs) :: r.payloads, r.crashed⟩
      else if b = 45 then
        let r := parser0 rest
        ⟨.dataP (.errRep bs) :: r.payloads, r.crashed⟩
      else if b = 58 then
        match parseIntBytes bs with
        | none =>
          let r := parser0 rest
          ⟨.errP (.protoErr bs) :: r.payloads, r.crashed⟩
        | some v =>
          let r := parser0 rest
          ⟨.dataP (.int v) :: r.payloads, r.crashed⟩
      else if b = 36 then
        match h2 : parseBulkString (b :: bs) rest with
        | .crashB => ⟨[], true⟩
        | .errB e => ⟨[.errP e], false⟩
        | .okB rep rest2 =>
          let r := parser0 rest2
          ⟨.dataP rep :: r.payloads, r.crashed⟩
      else if b = 42 then
        match h2 : parseArray (b :: bs) rest with
        | (pre, .crashA) => ⟨pre, true⟩
        | (pre, .errA e) => ⟨pre ++ [.errP e], false⟩
        | (pre, .okA lines rest2) =>
          let r := parser0 rest2
          ⟨pre ++ .dataP (.multiBulk (lines.map some)) :: r.payloads, r.crashed⟩
      else
        let r := parser0 rest
        ⟨.dataP (.multiBulk ((splitOnSpace (b :: bs)).map some)) :: r.payloads, r.crashed⟩
termination_by input.length
decreasing_by
  all_goals first
    | exact readLine_length h
    | exact Nat.lt_of_le_of_lt (parseBulkString_length h2) (readLine_length h)
    | exact Nat.lt_of_le_of_lt (parseArray_length h2) (readLine_length h)

/- ===== sharded concurrent dictionary (datastruct/dict, ConcurrentDict) ===== -/

/-- FNV-1a 32-bit hash over a key's bytes (`fnv32` in the dict source):
xor the byte in, then multiply by the prime, in `uint32` arithmetic. -/
def fnv32 (key : GoBytes) : Nat :=
  key.foldl (fun h b => ((h ^^^ b) * 16777619) % 4294967296) 2166136261

/-- `spread`: map a hash code to a shard index, `(uint32(tableLen) - 1) & hash`.
The subtraction wraps in `uint32` (`tableLen` is at least 16 in every constructed
dict, so the wrap never fires there). -/
def spread (tableLen : Nat) (hashCode : Nat) : Nat :=
  ((tableLen + 4294967295) % 4294967296) &&& hashCode

/-- Shard index of a key: `spread(fnv32(key))`. -/
def shardIndexOf (tableLen : Nat) (key : GoBytes) : Nat :=
  spread tableLen (fnv32 key)

/-- One smearing statement `n |= n >> k` of `computeCapacity`.  All operands
are non-negative, so Go's arithmetic right shift on `int` agrees with
`Nat.shiftRight`. -/
def smearStep (k x : Nat) : Nat := x ||| x >>> k

/-- The bit-smearing block of `computeCapacity`:
`n |= n>>1; n |= n>>2; n |= n>>4; n |= n>>8; n |= n>>16`. -/
def smear32 (n : Nat) : Nat :=
  smearStep 16 (smearStep 8 (smearStep 4 (smearStep 2 (smearStep 1 n))))

/-- `computeCapacity(param)`: 16 for `param ≤ 16`, otherwise the smeared
`param-1` plus one.  The `n < 0` overflow guard returning `math.MaxInt32`
(2^31 - 1) is kept verbatim; with 64-bit `int` and positive `param` the smeared
value is never negative, so the guard is dead code in the model as in the
source. -/
def computeCapacity (param : Int) : Int :=
  if param ≤ 16 then 16
  else
    if (smear32 (param - 1).toNat : Int) < 0 then 2147483647
    else (smear32 (param - 1).toNat : Int) + 1

/-- State of a `ConcurrentDict`: the shard table is a function from shard index
and key to the stored value (`table[i].m`), together with the global `count`
(an `int32` in the source; modelled as `Int`, wrap-around at 2^31 would need
more than 2^31 live keys and is immaterial here). -/
structure DictState (α : Type) where
  shardCount : Nat
  shards : Nat → GoBytes → Option α
  count : Int

/-- `MakeConcurrent(shardCount)`: `computeCapacity` shards, all empty, count 0. -/
def makeConcurrent (α : Type) (param : Int) : DictState α :=
  { shardCount := (computeCapacity param).toNat
    shards := fun _ _ => none
    count := 0 }

/-- Write `v` under `k` into the key's shard. -/
def putShard {α : Type} (d : DictState α) (i : Nat) (k : GoBytes) (v : α) :
    Nat → GoBytes → Option α :=
  fun j k2 => if j = i ∧ k2 = k then some v else d.shards j k2

/-- Delete `k` from the shard `i`. -/
def removeShard {α : Type} (d : DictState α) (i : Nat) (k : GoBytes) :
    Nat → GoBytes → Option α :=
  fun j k2 => if j = i ∧ k2 = k then none else d.shards j k2

/-- `Get(key)`: the stored value of the key's shard (`exists` is `isSome`). -/
def dictGet {α : Type} (d : DictState α) (k : GoBytes) : Option α :=
  d.shards (shardIndexOf d.shardCount k) k

/-- `Len()`: atomic load of the global count. -/
def dictLen {α : Type} (d : DictState α) : Int := d.count

/-- `Put(key, val)`: replace (result 0) or insert with `addCount` (result 1). -/
def dictPut {α : Type} (d : DictState α) (k : GoBytes) (v : α) : DictState α × Int :=
  match d.shards (shardIndexOf d.shardCount k) k with
  | some _ => ({ d with shards := putShard d (shardIndexOf d.shardCount k) k v }, 0)
  | none =>
    ({ d with shards := putShard d (shardIndexOf d.shardCount k) k v, count := d.count + 1 }, 1)

/-- `PutIfAbsent(key, val)`: keep (result 0) or insert with `addCount` (result 1). -/
def dictPutIfAbsent {α : Type} (d : DictState α) (k : GoBytes) (v : α) : DictState α × Int :=
  match d.shards (shardIndexOf d.shardCount k) k with
  | some _ => (d, 0)
  | none =>
    ({ d with shards := putShard d (shardIndexOf d.shardCount k) k v, count := d.count + 1 }, 1)

/-- `PutIfExist(key, val)`: replace without touching the count (result 1), or do
nothing (result 0). -/
def dictPutIfExist {α : Type} (d : DictState α) (k : GoBytes) (v : α) : DictState α × Int :=
  match d.shards (shardIndexOf d.shardCount k) k with
  | some _ => ({ d with shards := putShard d (shardIndexOf d.shardCount k) k v }, 1)
  | none => (d, 0)

/-- `Remove(key)`: delete with `decreaseCount` (result `(v, 1)`), or `(nil, 0)`. -/
def dictRemove {α : Type} (d : DictState α) (k : GoBytes) : DictState α × Option α × Int :=
  match d.shards (shardIndexOf d.shardCount k) k with
  | some v =>
    ({ d with shards := removeShard d (shardIndexOf d.shardCount k) k, count := d.count - 1 },
     some v, 1)
  | none => (d, none, 0)

/-- One dictionary operation of the claim-C7 trace. -/
inductive DictOp (α : Type) where
  | putOp (k : GoBytes) (v : α)
  | putIfAbsentOp (k : GoBytes) (v : α)
  | putIfExistOp (k : GoBytes) (v : α)
  | removeOp (k : GoBytes)

/-- Run one operation, returning the new state and the `int` result of the call. -/
def dictStep {α : Type} (d : DictState α) : DictOp α → DictState α × Int
  | .putOp k v => dictPut d k v
  | .putIfAbsentOp k v => dictPutIfAbsent d k v
  | .putIfExistOp k v => dictPutIfExist d k v
  | .removeOp k => ((dictRemove d k).1, (dictRemove d k).2.2)

/-- Final state after a trace of operations. -/
def dictRunState {α : Type} (d : DictState α) : List (DictOp α) → DictState α
  | [] => d
  | op :: t => dictRunState (dictStep d op).1 t

/-- Number of `Put`/`PutIfAbsent` calls of the trace that inserted (returned 1)
minus the number of `Remove` calls that removed an existing key (returned 1). -/
def insertedMinusRemoved {α : Type} (d : DictState α) : List (DictOp α) → Int
  | [] => 0
  | op :: t =>
    (match op with
     | .putOp _ _ => if (dictStep d op).2 = 1 then 1 else 0
     | .putIfAbsentOp _ _ => if (dictStep d op).2 = 1 then 1 else 0
     | .putIfExistOp _ _ => 0
     | .removeOp _ => if (dictStep d op).2 = 1 then -1 else 0)
      + insertedMinusRemoved (dictStep d op).1 t

/- ===== ordered multi-key locking (RWLocks / RWUnLocks / toLockIndices) ===== -/

/-- `toLockIndices(keys, reverse)`: the distinct shard indices of the keys,
sorted ascending (`indices[i] < indices[j]`) or, for `reverse`, descending.
Go's map iteration order is arbitrary, but the sorted list of a distinct set is
order-independent, so an insertion sort of the deduplicated index list is a
faithful deterministic model. -/
def toLockIndices (tableLen : Nat) (keys : List GoBytes) (reverse : Bool) : List Nat :=
  if reverse then
    List.insertionSort (fun a b => b ≤ a) ((keys.map (shardIndexOf tableLen)).dedup)
  else
    List.insertionSort (fun a b => a ≤ b) ((keys.map (shardIndexOf tableLen)).dedup)

/-- `RWLocks(writeKeys, readKeys)` as the sequence of shard-lock acquisitions it
performs, in order: `(index, true)` for `mu.Lock()` (some write key maps to the
shard), `(index, false)` for `mu.RLock()`.  Note the source passes
`reverse = false` to `toLockIndices`. -/
def rwLockActions (tableLen : Nat) (writeKeys readKeys : List GoBytes) : List (Nat × Bool) :=
  (toLockIndices tableLen (writeKeys ++ readKeys) false).map
    (fun i => (i, decide (i ∈ writeKeys.map (shardIndexOf tableLen))))

/-- `RWUnLocks(writeKeys, readKeys)` as the sequence of shard-lock releases, in
order: `(index, true)` for `mu.Unlock()`, `(index, false)` for `mu.RUnlock()`.
The source again passes `reverse = false` to `toLockIndices`. -/
def rwUnlockActions (tableLen : Nat) (writeKeys readKeys : List GoBytes) : List (Nat × Bool) :=
  (toLockIndices tableLen (writeKeys ++ readKeys) false).map
    (fun i => (i, decide (i ∈ writeKeys.map (shardIndexOf tableLen))))

/-- Prefix-or helper for the `smear32` proofs: the bitwise or of
`n >>> 0, …, n >>> (k-1)`. -/
def orShifts (n : Nat) : Nat → Nat
  | 0 => 0
  | k + 1 => orShifts n k ||| n >>> k

/- ===== per-database engine (database/database.go) ===== -/

/-- `strings.ToLower` on ASCII bytes (command names are ASCII). -/
def goToLower (s : GoBytes) : GoBytes :=
  s.map (fun b => if 65 ≤ b ∧ b ≤ 90 then b + 32 else b)

/-- State of a `DB`.  `data` entities and `ttlMap` instants are opaque to the
engine; `versionMap` stores `uint32` version codes.  `addAof` is a function
value on the Go side; the model records each call in `aofLog`. -/
structure DBState where
  data : DictState Nat
  ttlMap : DictState Int
  versionMap : DictState Nat
  aofLog : List GoCmdLine

/-- `GetVersion(key)`: the stored `uint32`, or 0 when the key is absent. -/
def getVersion (db : DBState) (key : GoBytes) : Nat :=
  (dictGet db.versionMap key).getD 0

/-- `addVersion(keys...)`: `Put(key, GetVersion(key)+1)` for each key, in
`uint32` arithmetic.  Defined in the source (database.go:259-264) but never
called: its only call site in `execNormalCommand` is commented out. -/
def addVersionDB (db : DBState) (keys : List GoBytes) : DBState :=
  match keys with
  | [] => db
  | k :: t =>
    addVersionDB
      { db with versionMap := (dictPut db.versionMap k ((getVersion db k + 1) % 4294967296)).1 }
      t

/-- A registered command (`database/router.go`, `command` struct): executors and
prepare functions are plug-in function values satisfying `ExecFunc`/`PreFunc`;
`undo` and `extra` are irrelevant to the claims. -/
structure GoCommand where
  arity : Int
  flags : Nat
  prepare : GoCmdLine → List GoBytes × List GoBytes
  executor : DBState → GoCmdLine → DBState × RReply

/-- `flagReadOnly = 1 << iota` (router.go). -/
def flagReadOnly : Nat := 1

/-- `validateArity(arity, cmdArgs)`. -/
def validateArityGo (arity : Int) (argNum : Nat) : Bool :=
  if 0 ≤ arity then (argNum : Int) = arity else (argNum : Int) ≥ -arity

/-- Error reply of `MakeErrReply("ERR unknown command '" + cmdName + "'")`. -/
def unknownCmdErr (name : GoBytes) : RReply :=
  .errRep ([69, 82, 82, 32, 117, 110, 107, 110, 111, 119, 110, 32, 99, 111,
            109, 109, 97, 110, 100, 32, 39] ++ name ++ [39])

/-- Error reply of `MakeArgNumErrReply(cmdName)`:
`ERR wrong number of arguments for '<cmd>' command`. -/
def argNumErr (name : GoBytes) : RReply :=
  .errRep ([69, 82, 82, 32, 119, 114, 111, 110, 103, 32, 110, 117, 109, 98,
            101, 114, 32, 111, 102, 32, 97, 114, 103, 117, 109, 101, 110, 116,
            115, 32, 102, 111, 114, 32, 39] ++ name
           ++ [39, 32, 99, 111, 109, 109, 97, 110, 100])

/-- `execNormalCommand(cmdLine)` (database.go:141-160): look the command up,
check arity, compute `(write, read)` keys via `prepare`, take `RWLocks`, run the
executor under the locks, release.  The `db.addVersion(write...)` call in the
source is commented out, and nothing here calls `addAof`; locking does not
change the sequential state, so the engine's whole effect is the executor's. -/
def execNormalCommand (table : GoBytes → Option GoCommand) (db : DBState)
    (cmdLine : GoCmdLine) : DBState × RReply :=
  match table (goToLower (cmdLine.headD [])) with
  | none => (db, unknownCmdErr (goToLower (cmdLine.headD [])))
  | some cmd =>
    if validateArityGo cmd.arity cmdLine.length then
      -- write, read := cmd.prepare(cmdLine[1:]) — a pure key analysis, consumed
      -- only by db.RWLocks(write, read) / deferred db.RWUnLocks(write, read);
      -- the lock acquisitions (`rwLockActions` on `(cmd.prepare _).1/.2`) do
      -- not change the sequential state.
      cmd.executor db (cmdLine.drop 1)
    else (db, argNumErr (goToLower (cmdLine.headD [])))

/-- `IsErrorReply(reply)`: first serialized byte is `'-'`; on the reply values
of this model that is exactly the `errRep` constructor. -/
def isErrorReply : RReply → Bool
  | .errRep _ => true
  | _ => false

/- fixtures for the C1 counterexample: a minimal registered writer command
(command implementations are external plug-ins per the spec, §1). -/

/-- A `SET`-style executor plug-in: store a value under the first argument and
answer `+OK`.  It touches neither `versionMap` nor the AOF log, as the
string-command executors of the upstream project do not bump versions
themselves. -/
def setExecutor : DBState → GoCmdLine → DBState × RReply :=
  fun db args => ({ db with data := (dictPut db.data (args.headD []) 1).1 }, .status [79, 75])

/-- `prepare` of the writer fixture: write key = first argument, no read keys. -/
def setPrepare : GoCmdLine → List GoBytes × List GoBytes :=
  fun args => ([args.headD []], [])

/-- Command descriptor of the fixture: arity 3, writer flags (`flagWrite = 0`). -/
def setCmd : GoCommand :=
  { arity := 3, flags := 0, prepare := setPrepare, executor := setExecutor }

/-- A one-command table registering the fixture under "set". -/
def tableSet : GoBytes → Option GoCommand :=
  fun name => if name = [115, 101, 116] then some setCmd else none

/-- A freshly made `DB` (`makeDB`: data and version dicts of capacity 2^16,
ttl dict of capacity 2^10, no AOF sink yet). -/
def freshDB : DBState :=
  { data := makeConcurrent Nat 65536
    ttlMap := makeConcurrent Int 1024
    versionMap := makeConcurrent Nat 65536
    aofLog := [] }

/- ===== connection object (redis/connection, Connection) ===== -/

/-- `flagSlave = 1 << iota`. -/
def flagSlave : Nat := 1

/-- `flagMaster = 1 << 1`. -/
def flagMaster : Nat := 2

/-- `flagMulti = 1 << 2`. -/
def flagMulti : Nat := 4

/-- Per-client state of a pooled `Connection` (the socket itself, wait counter
and mutex carry no sequential state).  Go nil maps are `none`. -/
structure ConnState where
  flags : Nat
  subs : Option (List GoBytes)
  password : GoBytes
  queue : List GoCmdLine
  watching : Option (List (GoBytes × Nat))
  txErrors : List GoBytes
  selectedDB : Int
deriving DecidableEq, Repr

/-- `Connection.Close`: after draining pending sends, reset `subs`, `password`,
`queue`, `watching`, `txErrors` and `selectedDB`, then return the object to
`connPool`.  The `flags` word is not touched. -/
def closeConn (c : ConnState) : ConnState :=
  { c with subs := none, password := [], queue := [], watching := none,
           txErrors := [], selectedDB := 0 }

/-- `MakeConn` on a pool hit returns the pooled object with only the socket
replaced: the sequential state is unchanged. -/
def makeConnFromPool (pooled : ConnState) : ConnState := pooled

/-- `InMultiState()`: `flags & flagMulti > 0`. -/
def inMultiState (c : ConnState) : Bool := c.flags &&& flagMulti > 0

/-- `SetMultiState(state)`: set the multi flag, or clear it together with the
queue and watch set. -/
def setMultiState (c : ConnState) (state : Bool) : ConnState :=
  if state then { c with flags := c.flags ||| flagMulti }
  else { c with watching := none, queue := [],
                flags := c.flags &&& (18446744073709551615 - flagMulti) }

/- ===== hashed time wheel (lib/timewheel, getPositionAndCircle) ===== -/

/-- `getPositionAndCircle(d)` (timewheel source): both durations are first
truncated to whole seconds (`int(d.Seconds())`), then divided.  All divisions
are Go's truncated `int` division; a sub-second interval makes
`intervalSeconds = 0` and the division panics (`none`).  `d.Seconds()` is a
`float64`; for durations below ~104 days the truncation of the float quotient
equals integer division by 10^9, which is what the model uses. -/
def getPositionAndCircle (interval : Int) (slotNum : Int) (currentPos : Int)
    (d : Int) : Option (Int × Int) :=
  if interval.tdiv 1000000000 = 0 ∨ slotNum = 0 then none
  else
    some (((currentPos + (d.tdiv 1000000000).tdiv (interval.tdiv 1000000000)).tmod slotNum),
          ((d.tdiv 1000000000).tdiv (interval.tdiv 1000000000)).tdiv slotNum)

/-- The scheduling formula as the specification words it: `step = floor(d /
interval)` with the quotient taken over the durations themselves (nanosecond
counts), `circle = step / slotNum`, `pos = (currentPos + step) mod slotNum`. -/
def specPositionAndCircle (interval : Int) (slotNum : Int) (currentPos : Int)
    (d : Int) : Option (Int × Int) :=
  if interval = 0 ∨ slotNum = 0 then none
  else
    some ((currentPos + d.tdiv interval).tmod slotNum,
          (d.tdiv interval).tdiv slotNum)

/- ===== AOF persister (aof/aof.go, writeAof) ===== -/

/-- The sequential state `writeAof` touches: `currentDB`, the bytes appended to
the AOF file so far, and the reused `buffer` of command lines handed to the
listeners.  File writes are modelled as always succeeding. -/
structure AofState where
  currentDB : Int
  fileBytes : List Nat
  buffer : List GoCmdLine

/-- An `aof.payload`: the command line and its database index. -/
structure AofPayload where
  cmdLine : GoCmdLine
  dbIndex : Int

/-- `utils.ToCmdLine("SELECT", strconv.Itoa(n))`. -/
def selectCmdLine (n : Int) : GoCmdLine :=
  [[83, 69, 76, 69, 67, 84], intToDigits n]

/-- `writeAof(p)` (aof.go:147-180): reset the buffer; when the payload's
`dbIndex` differs from `currentDB`, append a serialized `SELECT n` first and
update `currentDB`; then append the serialized command itself.  The listener
callbacks and the `FsyncAlways` sync do not change this state. -/
def writeAof (st : AofState) (p : AofPayload) : AofState :=
  if p.dbIndex ≠ st.currentDB then
    { currentDB := p.dbIndex
      fileBytes := st.fileBytes ++ serializeMultiBulk ((selectCmdLine p.dbIndex).map some)
        ++ serializeMultiBulk (p.cmdLine.map some)
      buffer := [selectCmdLine p.dbIndex, p.cmdLine] }
  else
    { currentDB := st.currentDB
      fileBytes := st.fileBytes ++ serializeMultiBulk (p.cmdLine.map some)
      buffer := [p.cmdLine] }

/- ===== helper lemmas: decimal numerals ===== -/

theorem natToDigits_mem_bounds {n x : Nat} (h : x ∈ natToDigits n) : 48 ≤ x ∧ x ≤ 57 := by
  induction n using natToDigits.induct with
  | case1 n hlt =>
    rw [natToDigits, if_pos hlt] at h
    simp at h
    omega
  | case2 n hlt ih =>
    rw [natToDigits, if_neg hlt] at h
    rcases List.mem_append.mp h with h1 | h1
    · exact ih h1
    · simp at h1
      have := Nat.mod_lt n (y := 10) (by omega)
      omega

theorem natToDigits_ne_nil (n : Nat) : natToDigits n ≠ [] := by
  rw [natToDigits]
  split <;> simp

theorem digitsValGo_append (acc : Nat) (xs ys : List Nat) :
    digitsValGo acc (xs ++ ys)
      = (digitsValGo acc xs).bind (fun a => digitsValGo a ys) := by
  induction xs generalizing acc with
  | nil => simp [digitsValGo]
  | cons d t ih =>
    rw [List.cons_append, digitsValGo, digitsValGo]
    split
    · exact ih _
    · simp

theorem digitsValGo_natToDigits (n : Nat) : ∀ acc,
    digitsValGo acc (natToDigits n) = some (acc * 10 ^ (natToDigits n).length + n) := by
  induction n using natToDigits.induct with
  | case1 n hlt =>
    intro acc
    rw [natToDigits, if_pos hlt]
    have hd : 48 ≤ n + 48 ∧ n + 48 ≤ 57 := by omega
    simp [digitsValGo, hd]
  | case2 n hlt ih =>
    intro acc
    rw [natToDigits, if_neg hlt, digitsValGo_append, ih acc]
    have hd : 48 ≤ n % 10 + 48 ∧ n % 10 + 48 ≤ 57 := by
      have := Nat.mod_lt n (y := 10) (by omega)
      omega
    simp only [Option.some_bind]
    rw [digitsValGo, if_pos hd, digitsValGo]
    congr 1
    have h48 : n % 10 + 48 - 48 = n % 10 := by omega
    rw [h48, List.length_append, List.length_singleton, pow_succ]
    have hmul : (acc * 10 ^ (natToDigits (n / 10)).length + n / 10) * 10 + n % 10
        = acc * (10 ^ (natToDigits (n / 10)).length * 10) + (n / 10 * 10 + n % 10) := by ring
    rw [hmul, Nat.div_add_mod' n 10]

theorem parseIntBytes_natToDigits (n : Nat) : parseIntBytes (natToDigits n) = some (n : Int) := by
  rcases hd : natToDigits n with _ | ⟨b, t⟩
  · exact absurd hd (natToDigits_ne_nil n)
  · have hb : 48 ≤ b ∧ b ≤ 57 := natToDigits_mem_bounds (hd ▸ List.mem_cons_self b t)
    rw [parseIntBytes]
    rw [if_neg (by omega), if_neg (by omega)]
    rw [← hd, digitsValGo_natToDigits n 0]
    simp

theorem natToDigits_no_newline {n x : Nat} (h : x ∈ natToDigits n) : x ≠ 10 := by
  have := natToDigits_mem_bounds h
  omega

/- ===== helper lemmas: line reading ===== -/

theorem readLine_append {a : List Nat} (rest : List Nat) (h : ∀ x ∈ a, x ≠ 10) :
    readLine (a ++ 10 :: rest) = some (a ++ [10], rest) := by
  induction a with
  | nil => simp [readLine]
  | cons b t ih =>
    have hb : b ≠ 10 := h b (List.mem_cons_self b t)
    rw [List.cons_append, readLine, if_neg hb,
        ih (fun x hx => h x (List.mem_cons_of_mem b hx))]
    rfl

theorem trimSuffixCRLF_append (a : List Nat) : trimSuffixCRLF (a ++ [13, 10]) = a := by
  unfold trimSuffixCRLF
  have hlen : (a ++ [13, 10]).length = a.length + 2 := by simp
  rw [if_pos]
  · rw [hlen]
    simp
  · constructor
    · omega
    · rw [hlen]
      simp

theorem readFull_exact (a b : List Nat) : readFull a.length (a ++ b) = .okR a b := by
  unfold readFull
  rw [if_pos (by simp)]
  simp

/- ===== helper lemmas: serialization round trip ===== -/

theorem parseArrayLoop_roundtrip (args : List GoBytes) : ∀ (acc : List GoBytes)
    (rest : List Nat),
    parseArrayLoop args.length acc
        (List.foldr (fun a acc2 => serializeBulkItem (some a) ++ acc2) [] args ++ rest)
      = .okA (acc.reverse ++ args) rest := by
  induction args with
  | nil =>
    intro acc rest
    simp [parseArrayLoop]
  | cons c t ih =>
    intro acc rest
    rw [List.length_cons, List.foldr_cons]
    have hsplit : (serializeBulkItem (some c)
          ++ List.foldr (fun a acc2 => serializeBulkItem (some a) ++ acc2) [] t) ++ rest
        = (36 :: natToDigits c.length ++ [13]) ++ 10 :: ((c ++ [13, 10])
          ++ (List.foldr (fun a acc2 => serializeBulkItem (some a) ++ acc2) [] t ++ rest)) := by
      rw [serializeBulkItem]
      simp
    have hline : readLine ((36 :: natToDigits c.length ++ [13]) ++ 10 :: ((c ++ [13, 10])
          ++ (List.foldr (fun a acc2 => serializeBulkItem (some a) ++ acc2) [] t ++ rest)))
        = some ((36 :: natToDigits c.length ++ [13]) ++ [10], (c ++ [13, 10])
          ++ (List.foldr (fun a acc2 => serializeBulkItem (some a) ++ acc2) [] t ++ rest)) := by
      apply readLine_append
      intro x hx
      rcases List.mem_cons.mp hx with h1 | h1
      · omega
      · rcases List.mem_append.mp h1 with h2 | h2
        · exact natToDigits_no_newline h2
        · simp at h2
          omega
    have hnn : (natToDigits c.length) ≠ [] := natToDigits_ne_nil _
    have hpos : 0 < (natToDigits c.length).length := List.length_pos.mpr hnn
    have hlen3 : ¬ (((36 :: natToDigits c.length ++ [13]) ++ [10]).length < 3) := by
      simp
    have htake : ((((36 :: natToDigits c.length ++ [13]) ++ [10]).take
          ((((36 :: natToDigits c.length ++ [13]) ++ [10]).length - 2))).drop 1)
        = natToDigits c.length := by
      have he : ((36 :: natToDigits c.length ++ [13]) ++ [10])
          = 36 :: (natToDigits c.length ++ [13, 10]) := by simp
      have hl : ((36 :: natToDigits c.length ++ [13]) ++ [10]).length - 2
          = (natToDigits c.length).length + 1 := by simp
      rw [hl, he, List.take_succ_cons]
      have : (natToDigits c.length ++ [13, 10]).take (natToDigits c.length).length
          = natToDigits c.length := List.take_left _ _
      rw [this]
      simp
    have hneg2 : ¬ (((c.length : Nat) : Int) + 2 < 0) := by omega
    have hcast : (((c.length : Nat) : Int) + 2).toNat = (c ++ [13, 10]).length := by
      simp
      omega
    have hblen2 : ¬ ((c ++ [13, 10]).length < 2) := by simp
    have hbody : (c ++ [13, 10]).take ((c ++ [13, 10]).length - 2) = c := by
      have hl2 : (c ++ [13, 10]).length - 2 = c.length := by simp
      rw [hl2]
      exact List.take_left _ _
    rw [hsplit, parseArrayLoop]
    simp only [hline, hlen3, if_false, htake, parseIntBytes_natToDigits, Option.getD_some,
      hneg2, hcast, readFull_exact, hblen2, hbody, ih (c :: acc)]
    simp

theorem parser0_nil : parser0 [] = ⟨[.errP .eof], false⟩ := by
  simp [parser0, readLine]

theorem parser0_multiBulk_core (args : List GoBytes) :
    parser0 (serializeMultiBulk (args.map some))
      = ⟨[.dataP (.multiBulk (args.map some)), .errP .eof], false⟩ := by
  have hsplit : serializeMultiBulk (args.map some)
      = (42 :: natToDigits args.length ++ [13]) ++ 10 ::
          (List.foldr (fun a acc2 => serializeBulkItem (some a) ++ acc2) [] args ++ []) := by
    rw [serializeMultiBulk]
    simp [List.foldr_map]
  have hline : readLine ((42 :: natToDigits args.length ++ [13]) ++ 10 ::
        (List.foldr (fun a acc2 => serializeBulkItem (some a) ++ acc2) [] args ++ []))
      = some ((42 :: natToDigits args.length ++ [13]) ++ [10],
        List.foldr (fun a acc2 => serializeBulkItem (some a) ++ acc2) [] args ++ []) := by
    apply readLine_append
    intro x hx
    rcases List.mem_cons.mp hx with h1 | h1
    · omega
    · rcases List.mem_append.mp h1 with h2 | h2
      · exact natToDigits_no_newline h2
      · simp at h2
        omega
  have htrim : trimSuffixCRLF ((42 :: natToDigits args.length ++ [13]) ++ [10])
      = 42 :: natToDigits args.length := by
    have he : (42 :: natToDigits args.length ++ [13]) ++ [10]
        = (42 :: natToDigits args.length) ++ [13, 10] := by simp
    rw [he, trimSuffixCRLF_append]
  have hnneg : ¬ (((args.length : Nat) : Int) < 0) := by omega
  have htoNat : (((args.length : Nat) : Int)).toNat = args.length := Int.toNat_natCast _
  have hpa : parseArray (42 :: natToDigits args.length)
      (List.foldr (fun a acc2 => serializeBulkItem (some a) ++ acc2) [] args ++ [])
      = ([], .okA args []) := by
    rw [parseArray.eq_def]
    simp only [List.drop_succ_cons, List.drop_zero, parseIntBytes_natToDigits]
    rw [if_neg hnneg, htoNat, parseArrayLoop_roundtrip args [] []]
    simp
  rw [hsplit, parser0]
  split
  · rename_i heq
    rw [hline] at heq
    cases heq
  · rename_i line rest heq
    rw [hline] at heq
    injection heq with heq1
    injection heq1 with hl hr
    subst hl
    subst hr
    simp only [htrim]
    norm_num
    split
    · rename_i pre h2
      rw [hpa] at h2
      injection h2 with hp1 hp2
      cases hp2
    · rename_i pre e h2
      rw [hpa] at h2
      injection h2 with hp1 hp2
      cases hp2
    · rename_i pre lines rest2 h2
      rw [hpa] at h2
      injection h2 with hp1 hp2
      injection hp2 with hq1 hq2
      subst hp1
      subst hq1
      subst hq2
      rw [parser0_nil]
      simp

/-- C6: round-trip of multi-bulk serialization.  Parsing the bytes of
`MakeMultiBulkReply(args).ToBytes()` for non-nil `args` yields exactly one data
payload, a `MultiBulkReply` with argument list `args`, followed by the standard
`EOF` error payload that terminates every stream, and the parser does not
panic.  (Proved for every `args`, empty or not.) -/
theorem c6_multiBulk_roundtrip (args : List GoBytes) :
    parser0 (serializeMultiBulk (args.map some))
      = ⟨[.dataP (.multiBulk (args.map some)), .errP .eof], false⟩ :=
  parser0_multiBulk_core args

/-- C10 counterexample: the parsing loop is not panic-free.  On the input
consisting of the single line `"\r\n"` the trimmed line is empty, `line[0]`
indexes an empty slice, and the goroutine panics after emitting nothing; the
claim asserts this input is handled without a runtime panic. -/
theorem c10_counterexample :
    parser0 [13, 10] = ⟨[], true⟩ ∧ (parser0 [13, 10]).crashed = true := by
  constructor
  · simp [parser0, readLine, trimSuffixCRLF]
  · simp [parser0, readLine, trimSuffixCRLF]

/-- C10 (amended): the parsing loop can panic — on a `"\r\n"` line (empty after
trimming, the type-selector byte is indexed on an empty slice) and on negative
bulk lengths followed by further input.  On well-formed serialized multi-bulk
commands it emits payloads and terminates without panicking. -/
theorem c10_no_crash_on_serialized (args : List GoBytes) :
    (parser0 (serializeMultiBulk (args.map some))).crashed = false := by
  rw [parser0_multiBulk_core args]

/-- C5 counterexample: a bulk-string header with declared length `-1` does not
emit a null-bulk payload — with one more byte of input the parser panics in
`body[:len(body)-2]` having emitted nothing — and a malformed length (`$ab`)
does not emit an error payload: the `ParseInt` error is discarded, the length
is treated as 0, and an empty bulk data payload is emitted instead. -/
theorem c5_counterexample :
    parser0 [36, 45, 49, 13, 10, 120] = ⟨[], true⟩ ∧
    parser0 [36, 97, 98, 13, 10, 120, 121]
      = ⟨[.dataP (.bulk []), .errP .eof], false⟩ := by
  constructor
  · simp [parser0, readLine, trimSuffixCRLF, parseBulkString, parseIntBytes, digitsValGo,
      readFull]
  · simp [parser0, readLine, trimSuffixCRLF, parseBulkString, parseIntBytes, digitsValGo,
      readFull]

/-- C5 (amended): for a parseable declared length `L ≥ 0` the parser reads
exactly `L+2` further bytes and emits their first `L` bytes (the trailing two
bytes stripped); a malformed length is silently treated as 0 — two bytes are
consumed and an empty bulk is emitted, with no error payload; `L = -1` never
produces a null-bulk payload (it panics or ends the stream in an error
payload, see the counterexample). -/
theorem c5_parseBulkString_amended (L : Nat) (input : List Nat) (badline : List Nat)
    (hL : L + 2 ≤ input.length) (hbad : parseIntBytes badline = none)
    (h2 : 2 ≤ input.length) :
    parseBulkString (36 :: natToDigits L) input
      = .okB (.bulk (input.take L)) (input.drop (L + 2)) ∧
    parseBulkString (36 :: badline) input
      = .okB (.bulk []) (input.drop 2) := by
  constructor
  · rw [parseBulkString]
    simp only [List.drop_succ_cons, List.drop_zero, parseIntBytes_natToDigits,
      Option.getD_some]
    have hneg : ¬ (((L : Nat) : Int) + 2 < 0) := by omega
    rw [if_neg hneg]
    have htn : (((L : Nat) : Int) + 2).toNat = L + 2 := by omega
    rw [htn]
    have hrf : readFull (L + 2) input = .okR (input.take (L + 2)) (input.drop (L + 2)) := by
      unfold readFull
      rw [if_pos hL]
    have hbl : (input.take (L + 2)).length = L + 2 := List.length_take_of_le hL
    simp only [hrf, hbl]
    rw [if_neg (by omega)]
    have hcut : (input.take (L + 2)).take (L + 2 - 2) = input.take L := by
      have h22 : L + 2 - 2 = L := by omega
      rw [h22, List.take_take]
      congr 1
      omega
    rw [hcut]
  · rw [parseBulkString]
    simp only [List.drop_succ_cons, List.drop_zero, hbad, Option.getD_none]
    have hneg : ¬ ((0 : Int) + 2 < 0) := by omega
    rw [if_neg hneg]
    have htn : ((0 : Int) + 2).toNat = 2 := by omega
    rw [htn]
    have hrf : readFull 2 input = .okR (input.take 2) (input.drop 2) := by
      unfold readFull
      rw [if_pos h2]
    have hbl : (input.take 2).length = 2 := List.length_take_of_le h2
    simp only [hrf, hbl]
    rw [if_neg (by omega)]
    simp

/-- C5 witness: the amended theorem applied at `L = 1`, input `"x\r\nyz"`, and
the malformed header `$ab`. -/
theorem c5_parseBulkString_amended_witness :
    parseBulkString (36 :: natToDigits 1) [120, 13, 10, 121, 122]
      = .okB (.bulk [120]) [121, 122] ∧
    parseBulkString (36 :: [97, 98]) [120, 13, 10, 121, 122]
      = .okB (.bulk []) [10, 121, 122] := by
  have h := c5_parseBulkString_amended 1 [120, 13, 10, 121, 122] [97, 98]
    (by decide) (by decide) (by decide)
  exact ⟨h.1, h.2⟩

/- ===== dictionary count invariant (C7) ===== -/

theorem dictRun_count {α : Type} (d : DictState α) (ops : List (DictOp α)) :
    (dictRunState d ops).count = d.count + insertedMinusRemoved d ops := by
  induction ops generalizing d with
  | nil => simp [dictRunState, insertedMinusRemoved]
  | cons op t ih =>
    rw [dictRunState, insertedMinusRemoved.eq_def, ih]
    cases op with
    | putOp k v =>
      unfold dictStep dictPut
      cases hs : d.shards (shardIndexOf d.shardCount k) k <;> simp [hs] <;> ring
    | putIfAbsentOp k v =>
      unfold dictStep dictPutIfAbsent
      cases hs : d.shards (shardIndexOf d.shardCount k) k <;> simp [hs] <;> ring
    | putIfExistOp k v =>
      unfold dictStep dictPutIfExist
      cases hs : d.shards (shardIndexOf d.shardCount k) k <;> simp [hs]
    | removeOp k =>
      unfold dictStep dictRemove
      cases hs : d.shards (shardIndexOf d.shardCount k) k <;> simp [hs] <;> ring

/-- C7: starting from a fresh concurrent dictionary, after any sequence of
`Put` / `PutIfAbsent` / `PutIfExist` / `Remove` operations, `Len()` equals the
number of `Put` and `PutIfAbsent` calls that inserted (returned 1) minus the
number of `Remove` calls that removed an existing key (returned 1); `PutIfExist`
and replacing `Put`s never change the count. -/
theorem c7_len_invariant (α : Type) (param : Int) (ops : List (DictOp α)) :
    dictLen (dictRunState (makeConcurrent α param) ops)
      = insertedMinusRemoved (makeConcurrent α param) ops := by
  have h := dictRun_count (makeConcurrent α param) ops
  simpa [dictLen, makeConcurrent] using h

/- ===== lock ordering (C2) ===== -/

theorem toLockIndices_sorted_lt (tableLen : Nat) (keys : List GoBytes) :
    (toLockIndices tableLen keys false).Sorted (· < ·) := by
  unfold toLockIndices
  simp only [Bool.false_eq_true, if_false]
  apply List.Sorted.lt_of_le
  · exact List.sorted_insertionSort _ _
  · exact ((List.perm_insertionSort _ _).nodup_iff).mpr (List.nodup_dedup _)

theorem toLockIndices_perm (tableLen : Nat) (keys : List GoBytes) :
    List.Perm (toLockIndices tableLen keys false) ((keys.map (shardIndexOf tableLen)).dedup) := by
  unfold toLockIndices
  simp only [Bool.false_eq_true, if_false]
  exact List.perm_insertionSort _ _

/-- C2 counterexample: `RWUnLocks` does not release in descending
(reverse-sorted) index order.  For a 16-shard dict, write key `"a"` and read key
`"b"` occupy shards 12 and 5; the unlock sequence visits 5 then 12 (ascending,
because the source passes `reverse = false`), not the descending order `[12, 5]`
the claim asserts. -/
theorem c2_counterexample :
    (rwUnlockActions 16 [[97]] [[98]]).map Prod.fst = [5, 12] ∧
    toLockIndices 16 ([[97]] ++ [[98]]) true = [12, 5] ∧
    (rwUnlockActions 16 [[97]] [[98]]).map Prod.fst
      ≠ toLockIndices 16 ([[97]] ++ [[98]]) true := by
  decide

/-- C2 (amended): `RWLocks` visits exactly the distinct shard indices of the
union of the key lists, in strictly ascending index order, write-locking a
shard iff some write key hashes to it and read-locking it otherwise; and
`RWUnLocks` releases the same shards in the same ascending order (not
descending — both call sites pass `reverse = false`). -/
theorem c2_lock_order (tableLen : Nat) (writeKeys readKeys : List GoBytes) :
    ((rwLockActions tableLen writeKeys readKeys).map Prod.fst).Sorted (· < ·) ∧
    List.Perm ((rwLockActions tableLen writeKeys readKeys).map Prod.fst)
      (((writeKeys ++ readKeys).map (shardIndexOf tableLen)).dedup) ∧
    (∀ p ∈ rwLockActions tableLen writeKeys readKeys,
        p.2 = true ↔ p.1 ∈ writeKeys.map (shardIndexOf tableLen)) ∧
    rwUnlockActions tableLen writeKeys readKeys = rwLockActions tableLen writeKeys readKeys := by
  have hmap : (rwLockActions tableLen writeKeys readKeys).map Prod.fst
      = toLockIndices tableLen (writeKeys ++ readKeys) false := by
    unfold rwLockActions
    rw [List.map_map,
      show (Prod.fst ∘ fun i => (i, decide (i ∈ writeKeys.map (shardIndexOf tableLen)))) = id
        from rfl,
      List.map_id]
  refine ⟨?_, ?_, ?_, rfl⟩
  · rw [hmap]
    exact toLockIndices_sorted_lt _ _
  · rw [hmap]
    exact toLockIndices_perm _ _
  · intro p hp
    unfold rwLockActions at hp
    rcases List.mem_map.mp hp with ⟨i, hi, rfl⟩
    simp

/- ===== connection close (C8) ===== -/

/-- C8 counterexample: `Close` does not clear the `flags` word.  A connection
closed while in MULTI state keeps `flagMulti`; checked out of the pool again it
still reports `InMultiState() = true`, not the default state the claim
asserts. -/
theorem c8_counterexample :
    (closeConn ⟨flagMulti, none, [], [], none, [], 0⟩).flags = flagMulti ∧
    inMultiState (makeConnFromPool (closeConn ⟨flagMulti, none, [], [], none, [], 0⟩))
      = true := by
  decide

/-- C8 (amended): `Close` zeroes the subscriptions, password, queued
transaction commands, watched keys, transaction errors and selected DB index
before returning the object to the pool, but leaves the `flags` word
(transaction/slave/master flags) untouched, so a connection checked out of the
pool reports the same `InMultiState()` as when it was closed. -/
theorem c8_close_resets_all_but_flags (c : ConnState) :
    closeConn c = ⟨c.flags, none, [], [], none, [], 0⟩ ∧
    inMultiState (makeConnFromPool (closeConn c)) = inMultiState c := by
  exact ⟨rfl, rfl⟩

/- ===== AOF writer (C9) ===== -/

/-- C9: for every payload, `writeAof` appends a serialized `SELECT n` multi-bulk
(`n = dbIndex`) before the payload's command bytes and updates `currentDB` to
`dbIndex` exactly when the payload's `dbIndex` differs from `currentDB`; when
they are equal only the command is appended and `currentDB` is unchanged.  In
both cases `currentDB` afterwards equals the payload's `dbIndex`. -/
theorem c9_writeAof_select (st : AofState) (p : AofPayload) :
    (p.dbIndex ≠ st.currentDB →
      writeAof st p = ⟨p.dbIndex,
        st.fileBytes ++ serializeMultiBulk ((selectCmdLine p.dbIndex).map some)
          ++ serializeMultiBulk (p.cmdLine.map some),
        [selectCmdLine p.dbIndex, p.cmdLine]⟩) ∧
    (p.dbIndex = st.currentDB →
      writeAof st p = ⟨st.currentDB,
        st.fileBytes ++ serializeMultiBulk (p.cmdLine.map some),
        [p.cmdLine]⟩) ∧
    (writeAof st p).currentDB = p.dbIndex := by
  refine ⟨?_, ?_, ?_⟩
  · intro h
    simp [writeAof, h]
  · intro h
    simp [writeAof, h]
  · unfold writeAof
    split
    · rfl
    · rename_i h
      simp at h
      simp [h]

/-- C9 witness: the theorem applied to a writer on database 3 while
`currentDB = 0` (the differing case) and to one on database 2 while
`currentDB = 2` (the equal case). -/
theorem c9_writeAof_select_witness :
    writeAof ⟨0, [], []⟩ ⟨[[80]], 3⟩ = ⟨3,
      [] ++ serializeMultiBulk ((selectCmdLine 3).map some)
        ++ serializeMultiBulk (([[80]] : GoCmdLine).map some),
      [selectCmdLine 3, [[80]]]⟩ ∧
    writeAof ⟨2, [], []⟩ ⟨[[80]], 2⟩ = ⟨2,
      [] ++ serializeMultiBulk (([[80]] : GoCmdLine).map some),
      [[[80]]]⟩ :=
  ⟨(c9_writeAof_select ⟨0, [], []⟩ ⟨[[80]], 3⟩).1 (by decide),
   (c9_writeAof_select ⟨2, [], []⟩ ⟨[[80]], 2⟩).2.1 (by decide)⟩

/- ===== time wheel scheduling (C4) ===== -/

/-- C4 counterexample: the quotient is not taken over the durations themselves.
With `interval = 1.5s`, `slotNum = 60`, `currentPos = 0` and `d = 3s`, the
duration quotient is 2 (`pos = 2`), but `getPositionAndCircle` first truncates
both durations to whole seconds and computes `3 / 1 = 3` (`pos = 3`). -/
theorem c4_counterexample :
    getPositionAndCircle 1500000000 60 0 3000000000 = some (3, 0) ∧
    specPositionAndCircle 1500000000 60 0 3000000000 = some (2, 0) ∧
    getPositionAndCircle 1500000000 60 0 3000000000
      ≠ specPositionAndCircle 1500000000 60 0 3000000000 := by
  decide

/-- C4 (amended): the wheel computes `step = int(d.Seconds()) /
int(interval.Seconds())`, a quotient of durations truncated to whole seconds.
This agrees with the claimed formula (quotient over the durations themselves)
exactly when both the delay and the interval are whole numbers of seconds. -/
theorem c4_whole_seconds (a b sn cp : Nat) (hb : 1 ≤ b) (hsn : 1 ≤ sn) :
    getPositionAndCircle ((b : Int) * 1000000000) (sn : Int) (cp : Int)
        ((a : Int) * 1000000000)
      = specPositionAndCircle ((b : Int) * 1000000000) (sn : Int) (cp : Int)
        ((a : Int) * 1000000000) := by
  have hbc : ((b : Int) * 1000000000) = ((b * 1000000000 : Nat) : Int) := by push_cast; ring
  have hac : ((a : Int) * 1000000000) = ((a * 1000000000 : Nat) : Int) := by push_cast; ring
  have e1 : ((b * 1000000000 : Nat) : Int).tdiv ((1000000000 : Nat) : Int)
      = ((b * 1000000000 / 1000000000 : Nat) : Int) := rfl
  have e2 : ((a * 1000000000 : Nat) : Int).tdiv ((1000000000 : Nat) : Int)
      = ((a * 1000000000 / 1000000000 : Nat) : Int) := rfl
  have e3 : ((a * 1000000000 : Nat) : Int).tdiv ((b * 1000000000 : Nat) : Int)
      = ((a * 1000000000 / (b * 1000000000) : Nat) : Int) := rfl
  have hb9 : b * 1000000000 / 1000000000 = b := Nat.mul_div_cancel b (by omega)
  have ha9 : a * 1000000000 / 1000000000 = a := Nat.mul_div_cancel a (by omega)
  have hab : a * 1000000000 / (b * 1000000000) = a / b :=
    Nat.mul_div_mul_right a b (by omega)
  have e4 : ((a : Nat) : Int).tdiv ((b : Nat) : Int) = ((a / b : Nat) : Int) := rfl
  unfold getPositionAndCircle specPositionAndCircle
  rw [hbc, hac, show (1000000000 : Int) = ((1000000000 : Nat) : Int) from rfl,
    e1, e2, e3, hb9, ha9, hab, e4]
  have h1 : ¬ (((b : Nat) : Int) = 0 ∨ ((sn : Nat) : Int) = 0) := by
    push_neg
    constructor
    · simp
      omega
    · simp
      omega
  have h2 : ¬ (((b * 1000000000 : Nat) : Int) = 0 ∨ ((sn : Nat) : Int) = 0) := by
    push_neg
    constructor
    · simp
      omega
    · simp
      omega
  rw [if_neg h1, if_neg h2]

/-- C4 witness: the amended theorem at `interval = 2s`, `slotNum = 60`,
`currentPos = 3`, `d = 5s`. -/
theorem c4_whole_seconds_witness :
    getPositionAndCircle ((2 : Nat) * 1000000000 : Int) 60 3 ((5 : Nat) * 1000000000 : Int)
      = specPositionAndCircle ((2 : Nat) * 1000000000 : Int) 60 3
          ((5 : Nat) * 1000000000 : Int) := by
  have h := c4_whole_seconds 5 2 60 3 (by decide) (by decide)
  exact_mod_cast h

/- ===== engine version/AOF bookkeeping (C1) ===== -/

/-- C1 counterexample: a writer command (`flags & flagReadOnly = 0`) executed
through `execNormalCommand` whose executor answers the non-error reply `+OK`
leaves `version[k]` unchanged (0 before and after, not strictly greater) and
never calls `addAof` — the `db.addVersion(write...)` call in the source is
commented out and no AOF record is produced by the engine. -/
theorem c1_counterexample :
    setCmd.flags &&& flagReadOnly = 0 ∧
    isErrorReply (execNormalCommand tableSet freshDB [[83, 69, 84], [107], [118]]).2 = false ∧
    getVersion (execNormalCommand tableSet freshDB [[83, 69, 84], [107], [118]]).1 [107]
      = getVersion freshDB [107] ∧
    ¬ (getVersion freshDB [107]
        < getVersion (execNormalCommand tableSet freshDB [[83, 69, 84], [107], [118]]).1 [107]) ∧
    (execNormalCommand tableSet freshDB [[83, 69, 84], [107], [118]]).1.aofLog = [] := by
  decide

/-- C1 (amended): `execNormalCommand` dispatches to the executor under the
shard locks but itself bumps no versions and logs nothing to the AOF: whenever
every registered executor leaves `versionMap` and the AOF log untouched, the
whole engine call leaves them untouched, and `version[k]` after equals
`version[k]` before for every key. -/
theorem c1_exec_no_version_no_aof (table : GoBytes → Option GoCommand) (db : DBState)
    (cmdLine : GoCmdLine) (k : GoBytes)
    (hexec : ∀ name c, table name = some c → ∀ db2 args,
        (c.executor db2 args).1.versionMap = db2.versionMap ∧
        (c.executor db2 args).1.aofLog = db2.aofLog) :
    (execNormalCommand table db cmdLine).1.versionMap = db.versionMap ∧
    (execNormalCommand table db cmdLine).1.aofLog = db.aofLog ∧
    getVersion (execNormalCommand table db cmdLine).1 k = getVersion db k := by
  unfold execNormalCommand
  split
  · exact ⟨rfl, rfl, rfl⟩
  · rename_i cmd hcmd
    split
    · obtain ⟨h1, h2⟩ := hexec _ _ hcmd db (cmdLine.drop 1)
      refine ⟨h1, h2, ?_⟩
      unfold getVersion dictGet
      rw [h1]
    · exact ⟨rfl, rfl, rfl⟩

/-- C1 witness: the amended theorem applied to the table registering the `SET`
fixture, the fresh database and the command `SET k v`. -/
theorem c1_exec_no_version_no_aof_witness :
    (execNormalCommand tableSet freshDB [[83, 69, 84], [107], [118]]).1.versionMap
      = freshDB.versionMap ∧
    (execNormalCommand tableSet freshDB [[83, 69, 84], [107], [118]]).1.aofLog
      = freshDB.aofLog ∧
    getVersion (execNormalCommand tableSet freshDB [[83, 69, 84], [107], [118]]).1 [107]
      = getVersion freshDB [107] := by
  have hexec : ∀ name c, tableSet name = some c → ∀ db2 args,
      (c.executor db2 args).1.versionMap = db2.versionMap ∧
      (c.executor db2 args).1.aofLog = db2.aofLog := by
    intro name c hc db2 args
    unfold tableSet at hc
    split at hc
    · injection hc with hc1
      subst hc1
      exact ⟨rfl, rfl⟩
    · cases hc
  exact c1_exec_no_version_no_aof tableSet freshDB [[83, 69, 84], [107], [118]] [107] hexec

/- ===== capacity computation (C3) ===== -/

theorem testBit_orShifts (n : Nat) : ∀ (k p : Nat),
    (orShifts n k).testBit p = true ↔ ∃ j, j < k ∧ n.testBit (p + j) = true := by
  intro k
  induction k with
  | zero =>
    intro p
    simp [orShifts]
  | succ m ih =>
    intro p
    rw [orShifts, Nat.testBit_lor, Nat.testBit_shiftRight, Bool.or_eq_true]
    constructor
    · rintro (h1 | h1)
      · obtain ⟨j, hj, hb⟩ := (ih p).mp h1
        exact ⟨j, by omega, hb⟩
      · refine ⟨m, by omega, ?_⟩
        rwa [Nat.add_comm p m]
    · rintro ⟨j, hj, hb⟩
      by_cases hjm : j < m
      · exact Or.inl ((ih p).mpr ⟨j, hjm, hb⟩)
      · have hjeq : j = m := by omega
        rw [hjeq] at hb
        exact Or.inr (by rwa [Nat.add_comm m p])

theorem orShifts_add (n a : Nat) :
    orShifts n a ||| (orShifts n a) >>> a = orShifts n (a + a) := by
  apply Nat.eq_of_testBit_eq
  intro p
  apply Bool.eq_iff_iff.mpr
  rw [Nat.testBit_lor, Nat.testBit_shiftRight]
  rw [Bool.or_eq_true]
  rw [testBit_orShifts, testBit_orShifts, testBit_orShifts]
  constructor
  · rintro (⟨j, hj, hb⟩ | ⟨j, hj, hb⟩)
    · exact ⟨j, by omega, hb⟩
    · refine ⟨a + j, by omega, ?_⟩
      have he : p + (a + j) = a + p + j := by omega
      rwa [he]
  · rintro ⟨j, hj, hb⟩
    by_cases hja : j < a
    · exact Or.inl ⟨j, hja, hb⟩
    · right
      refine ⟨j - a, by omega, ?_⟩
      have he : a + p + (j - a) = p + j := by omega
      rwa [he]

theorem smearStep_orShifts (n a : Nat) :
    smearStep a (orShifts n a) = orShifts n (a + a) := by
  rw [smearStep]
  exact orShifts_add n a

theorem smear32_eq_orShifts (n : Nat) : smear32 n = orShifts n 32 := by
  have h1 : orShifts n 1 = n := by
    rw [orShifts, orShifts]
    simp
  have h2 : smearStep 1 n = orShifts n 2 := by
    have h := smearStep_orShifts n 1
    rw [h1] at h
    exact h
  have h4 := smearStep_orShifts n 2
  rw [show (2 + 2 : Nat) = 4 from rfl] at h4
  have h8 := smearStep_orShifts n 4
  rw [show (4 + 4 : Nat) = 8 from rfl] at h8
  have h16 := smearStep_orShifts n 8
  rw [show (8 + 8 : Nat) = 16 from rfl] at h16
  have h32 := smearStep_orShifts n 16
  rw [show (16 + 16 : Nat) = 32 from rfl] at h32
  rw [smear32, h2, h4, h8, h16, h32]

theorem testBit_size_sub_one {n : Nat} (hn : 0 < n) :
    n.testBit (n.size - 1) = true := by
  have hpos : 0 < n.size := Nat.size_pos.mpr hn
  have h1 : 2 ^ (n.size - 1) ≤ n := Nat.lt_size.mp (by omega)
  have h2 : n < 2 ^ (n.size - 1 + 1) := by
    have hs := Nat.lt_size_self n
    have he : n.size - 1 + 1 = n.size := by omega
    rwa [he]
  have hdiv : n / 2 ^ (n.size - 1) = 1 := by
    apply Nat.div_eq_of_lt_le
    · simpa using h1
    · have he : 2 ^ (n.size - 1 + 1) = 2 * 2 ^ (n.size - 1) := by
        rw [pow_succ]
        ring
      rw [he] at h2
      simpa [two_mul] using h2
  rw [Nat.testBit_to_div_mod, hdiv]
  rfl

theorem smear32_sets_all_bits {n : Nat} (hn : 0 < n) (h32 : n < 2 ^ 32) :
    smear32 n = 2 ^ n.size - 1 := by
  rw [smear32_eq_orShifts]
  apply Nat.eq_of_testBit_eq
  intro p
  apply Bool.eq_iff_iff.mpr
  rw [Nat.testBit_two_pow_sub_one, testBit_orShifts]
  rw [decide_eq_true_eq]
  constructor
  · rintro ⟨j, hj, hb⟩
    by_contra hp
    push_neg at hp
    have hlt : n < 2 ^ (p + j) :=
      lt_of_lt_of_le (Nat.lt_size_self n) (Nat.pow_le_pow_right (by omega) (by omega))
    rw [Nat.testBit_eq_false_of_lt hlt] at hb
    cases hb
  · intro hp
    have hsz : n.size ≤ 32 := Nat.size_le.mpr h32
    refine ⟨n.size - 1 - p, by omega, ?_⟩
    have hpt : p + (n.size - 1 - p) = n.size - 1 := by omega
    rw [hpt]
    exact testBit_size_sub_one hn

/-- C3 counterexample: no saturation at 2^31.  For `param = 2^31 + 1` the
constructed dictionary has 2^32 shards (with 64-bit `int` the overflow guard —
whose saturation value would in any case be `math.MaxInt32 = 2^31 - 1`, not
2^31 — is dead code). -/
theorem c3_counterexample :
    (makeConcurrent Nat (2147483649 : Int)).shardCount = 4294967296 ∧
    computeCapacity 2147483649 = 4294967296 ∧
    computeCapacity 2147483649 ≠ 2147483648 := by
  constructor
  · rfl
  · constructor
    · rfl
    · decide

/-- C3 (amended): the dictionary is constructed with
`N = computeCapacity(param)` shards; `N = 16` for `param ≤ 16`, and for
`17 ≤ param ≤ 2^32` the result is the smallest power of two ≥ `param`
(a power of two that is at least `param` and less than `2·param`).  There is
no saturation at 2^31. -/
theorem c3_capacity_smallest_pow2 (param : Int) :
    (param ≤ 16 → ((makeConcurrent Nat param).shardCount : Int) = 16) ∧
    (17 ≤ param → param ≤ 2 ^ 32 →
      ((makeConcurrent Nat param).shardCount : Int) = computeCapacity param ∧
      (∃ k : Nat, computeCapacity param = 2 ^ k) ∧
      param ≤ computeCapacity param ∧ computeCapacity param < 2 * param) := by
  constructor
  · intro h
    unfold makeConcurrent computeCapacity
    rw [if_pos h]
    rfl
  · intro h17 hub
    have hn0 : 0 < (param - 1).toNat := by omega
    have hn32 : (param - 1).toNat < 2 ^ 32 := by
      have : (2 : Int) ^ 32 = ((2 ^ 32 : Nat) : Int) := by norm_num
      omega
    have hsm := smear32_sets_all_bits hn0 hn32
    have hsize1 : 0 < (param - 1).toNat.size := Nat.size_pos.mpr hn0
    have hpow1 : 1 ≤ (2 : Nat) ^ (param - 1).toNat.size := Nat.one_le_two_pow
    have hpowcast : (((2 : Nat) ^ (param - 1).toNat.size : Nat) : Int)
        = (2 : Int) ^ (param - 1).toNat.size := by
      push_cast
      ring
    have hcc : computeCapacity param = ((2 : Int)) ^ (param - 1).toNat.size := by
      unfold computeCapacity
      rw [if_neg (by omega), hsm]
      rw [if_neg (by omega)]
      omega
    have hlow : 2 ^ ((param - 1).toNat.size - 1) ≤ (param - 1).toNat :=
      Nat.lt_size.mp (by omega)
    have hhigh : (param - 1).toNat < 2 ^ (param - 1).toNat.size := Nat.lt_size_self _
    refine ⟨?_, ⟨(param - 1).toNat.size, hcc⟩, ?_, ?_⟩
    · unfold makeConcurrent
      rw [hcc, ← hpowcast, Int.toNat_natCast, hpowcast]
    · rw [hcc]
      omega
    · rw [hcc]
      have hchain : 2 ^ (param - 1).toNat.size ≤ 2 * (param - 1).toNat := by
        have he : (param - 1).toNat.size = ((param - 1).toNat.size - 1) + 1 := by omega
        rw [he, pow_succ]
        have := hlow
        omega
      omega

/-- C3 witness: the amended theorem at `param = 16` (minimum) and
`param = 1000` (general case: 1024 shards). -/
theorem c3_capacity_smallest_pow2_witness :
    ((makeConcurrent Nat 16).shardCount : Int) = 16 ∧
    (((makeConcurrent Nat 1000).shardCount : Int) = computeCapacity 1000 ∧
      (∃ k : Nat, computeCapacity 1000 = 2 ^ k) ∧
      (1000 : Int) ≤ computeCapacity 1000 ∧ computeCapacity 1000 < 2 * 1000) :=
  ⟨(c3_capacity_smallest_pow2 16).1 (by decide),
   (c3_capacity_smallest_pow2 1000).2 (by decide) (by decide)⟩

end Godis
